import Mathlib

/-!
Shallow embedding of the Conduit channel core (src/native/src/conduit_ffi.c).

The C code implements Go-style channels: a `conduit_channel_t` struct holding a
circular buffer (for buffered channels), a single-value rendezvous slot (for
unbuffered channels), and a `closed` flag, all protected by one mutex plus two
condition variables.  Every mutation of channel state happens inside a
mutex-protected critical section; blocking operations release the mutex at
`pthread_cond_wait` and re-run their loop check on wakeup.

We embed each critical section as a pure state transformer on a `Chan` record
that mirrors the C struct field by field.  A blocking operation is embedded as
a function returning either the completed result together with the state it
leaves behind, or a `waits` marker recording the state the thread leaves
behind as it blocks on a condition variable; the code executed on wakeup
(the re-checked while loop and what follows it) is embedded as a separate
`resume` transformer.  `lean_object *` payload pointers become `Option α`
(`none` = NULL); the `lean_dec` calls on failed sends are recorded in a
`released` flag of the result.
-/

namespace Conduit

/-- Mirror of `conduit_channel_t` (conduit_ffi.c lines 17-35), minus the
pthread primitives: circular buffer (`buffer`/`capacity`/`head`/`tail`/`count`),
rendezvous slot (`pending_value`/`pending_ready`/`pending_taken`), and the
`closed` flag.  Buffer slots are `Option α` since dequeued slots are set to
NULL by the C code. -/
structure Chan (α : Type) where
  buffer : List (Option α)
  capacity : Nat
  head : Nat
  tail : Nat
  count : Nat
  pending_value : Option α
  pending_ready : Bool
  pending_taken : Bool
  closed : Bool
  deriving Repr, DecidableEq

/-- `conduit_channel_new` (lines 107-144): fresh unbuffered channel. -/
def conduit_channel_new (α : Type) : Chan α :=
  { buffer := []
    capacity := 0
    head := 0
    tail := 0
    count := 0
    pending_value := none
    pending_ready := false
    pending_taken := false
    closed := false }

/-- `conduit_channel_new_buffered` (lines 153-206): fresh buffered channel of
the given capacity; capacity 0 falls back to `conduit_channel_new`.  The
buffer is `calloc`ed, i.e. all slots NULL. -/
def conduit_channel_new_buffered (α : Type) (capacity : Nat) : Chan α :=
  if capacity = 0 then conduit_channel_new α
  else
    { buffer := List.replicate capacity none
      capacity := capacity
      head := 0
      tail := 0
      count := 0
      pending_value := none
      pending_ready := false
      pending_taken := false
      closed := false }

/-- Buffered enqueue step of `conduit_channel_send`/`conduit_channel_try_send`
(lines 270-273 and 391-394): store at `tail`, advance `tail` modulo
`capacity`, increment `count`. -/
def enqueue {α : Type} (c : Chan α) (v : α) : Chan α :=
  { c with
    buffer := c.buffer.set c.tail (some v)
    tail := (c.tail + 1) % c.capacity
    count := c.count + 1 }

/-- Value read by the buffered dequeue (`ch->buffer[ch->head]`, lines 337 and
458). -/
def frontVal {α : Type} (c : Chan α) : Option α :=
  c.buffer.getD c.head none

/-- Buffered dequeue step of `conduit_channel_recv`/`conduit_channel_try_recv`
(lines 337-340 and 458-461): clear the slot at `head`, advance `head` modulo
`capacity`, decrement `count`. -/
def dequeue {α : Type} (c : Chan α) : Chan α :=
  { c with
    buffer := c.buffer.set c.head none
    head := (c.head + 1) % c.capacity
    count := c.count - 1 }

/-- Rendezvous deposit of the unbuffered `conduit_channel_send`
(lines 233-235): place the value into the pending slot. -/
def deposit {α : Type} (c : Chan α) (v : α) : Chan α :=
  { c with
    pending_value := some v
    pending_ready := true
    pending_taken := false }

/-- Rendezvous claim of `conduit_channel_recv`/`conduit_channel_try_recv`
(lines 306-308 and 423-425): mark the pending value taken; the
`pending_value` pointer itself is cleared later by the woken sender. -/
def claim {α : Type} (c : Chan α) : Chan α :=
  { c with
    pending_taken := true
    pending_ready := false }

/-- Outcome of one critical section of a blocking send: either the call
returns (`ret b released st`: C return value `b`, whether `lean_dec` was
called on the argument, and the channel state left behind), or the thread
blocks on a condition variable leaving state `st` (`waits st`). -/
inductive SendOutcome (α : Type) where
  | ret (b : Bool) (released : Bool) (st : Chan α)
  | waits (st : Chan α)
  deriving Repr, DecidableEq

/-- The channel state an outcome leaves behind. -/
def SendOutcome.state {α : Type} : SendOutcome α → Chan α
  | .ret _ _ st => st
  | .waits st => st

/-- Entry critical section of `conduit_channel_send` (lines 214-281).
If closed: return false, release the value (lines 225-229).  Unbuffered:
deposit into the pending slot, signal `not_empty`, and block on `not_full`
(the wait-loop guard `!pending_taken && !closed` necessarily holds right
after the deposit, lines 231-243).  Buffered: block on `not_full` while
`count >= capacity` (line 260, `closed` is false here), else enqueue and
return true (lines 270-279). -/
def conduit_channel_send {α : Type} (c : Chan α) (v : α) : SendOutcome α :=
  if c.closed then .ret false true c
  else if c.capacity = 0 then .waits (deposit c v)
  else if c.capacity ≤ c.count then .waits c
  else .ret true false (enqueue c v)

/-- Wakeup critical section of the buffered `conduit_channel_send`
(lines 260-280): re-check the wait loop `count >= capacity && !closed`;
once out of the loop, return false and release if closed, else enqueue. -/
def send_buffered_resume {α : Type} (c : Chan α) (v : α) : SendOutcome α :=
  if c.capacity ≤ c.count ∧ ¬c.closed then .waits c
  else if c.closed then .ret false true c
  else .ret true false (enqueue c v)

/-- Wakeup critical section of the unbuffered `conduit_channel_send`
(lines 241-257): re-check the wait loop `!pending_taken && !closed`; once out
of the loop, `success = pending_taken`, reset the pending slot, return
`success`, releasing the value iff the handoff did not happen. -/
def send_unbuffered_resume {α : Type} (c : Chan α) : SendOutcome α :=
  if ¬c.pending_taken ∧ ¬c.closed then .waits c
  else
    .ret c.pending_taken (!c.pending_taken)
      { c with
        pending_value := none
        pending_ready := false
        pending_taken := false }

/-- Outcome of one critical section of a blocking receive: `ret r st` where
`r : Option (Option α)` is `none` for the C `none` result (closed and
drained) and `some p` for `some` of payload pointer `p`; or `waits st`. -/
inductive RecvOutcome (α : Type) where
  | ret (r : Option (Option α)) (st : Chan α)
  | waits (st : Chan α)
  deriving Repr, DecidableEq

/-- The channel state an outcome leaves behind. -/
def RecvOutcome.state {α : Type} : RecvOutcome α → Chan α
  | .ret _ st => st
  | .waits st => st

/-- Critical section of `conduit_channel_recv` (lines 289-352); since the
wait loops sit at the top of each branch, entry and wakeup run the same code.
Unbuffered: block while `!pending_ready && !closed`; then claim the pending
value if `pending_ready && !pending_taken`, else return `none`
(lines 298-323).  Buffered: block while `count == 0 && !closed`; then return
`none` if still empty, else dequeue from `head` (lines 325-351). -/
def conduit_channel_recv {α : Type} (c : Chan α) : RecvOutcome α :=
  if c.capacity = 0 then
    if ¬c.pending_ready ∧ ¬c.closed then .waits c
    else if c.pending_ready ∧ ¬c.pending_taken then
      .ret (some c.pending_value) (claim c)
    else .ret none c
  else
    if c.count = 0 ∧ ¬c.closed then .waits c
    else if c.count = 0 then .ret none c
    else .ret (some (frontVal c)) (dequeue c)

/-- Tri-state result of `conduit_channel_try_send` (C encodes 0 = ok,
1 = would block, 2 = closed). -/
inductive TrySendResult where
  | ok
  | wouldBlock
  | closed
  deriving Repr, DecidableEq

/-- `conduit_channel_try_send` (lines 360-401): result, whether the value was
released (`lean_dec`), and the new state.  Closed: `closed`, released.
Unbuffered: always `wouldBlock`, released (lines 376-382).  Buffered full:
`wouldBlock`, released; else enqueue, `ok` (lines 383-399). -/
def conduit_channel_try_send {α : Type} (c : Chan α) (v : α) :
    TrySendResult × Bool × Chan α :=
  if c.closed then (.closed, true, c)
  else if c.capacity = 0 then (.wouldBlock, true, c)
  else if c.capacity ≤ c.count then (.wouldBlock, true, c)
  else (.ok, false, enqueue c v)

/-- Result of `conduit_channel_try_recv`: constructor 0 = `ok` with the
payload pointer, 1 = `empty`, 2 = `closed`. -/
inductive TryRecvResult (α : Type) where
  | ok (v : Option α)
  | empty
  | closed
  deriving Repr, DecidableEq

/-- `conduit_channel_try_recv` (lines 411-472).  Unbuffered: claim the
pending value if `pending_ready && !pending_taken`, else `closed` if closed,
else `empty` (lines 420-443).  Buffered: if `count == 0` then `closed` or
`empty` by the flag, else dequeue (lines 444-471). -/
def conduit_channel_try_recv {α : Type} (c : Chan α) :
    TryRecvResult α × Chan α :=
  if c.capacity = 0 then
    if c.pending_ready ∧ ¬c.pending_taken then
      (.ok c.pending_value, claim c)
    else if c.closed then (.closed, c)
    else (.empty, c)
  else
    if c.count = 0 then
      if c.closed then (.closed, c) else (.empty, c)
    else (.ok (frontVal c), dequeue c)

/-- The two condition variables of the channel (broadcast targets of
`conduit_channel_close`). -/
inductive CondVar where
  | not_empty
  | not_full
  deriving Repr, DecidableEq

/-- `conduit_channel_close` (lines 480-500): if not yet closed, set `closed`
and broadcast on both condition variables; otherwise do nothing.  The second
component lists the broadcasts performed. -/
def conduit_channel_close {α : Type} (c : Chan α) : Chan α × List CondVar :=
  if c.closed then (c, [])
  else ({ c with closed := true }, [CondVar.not_empty, CondVar.not_full])

/-- `conduit_channel_is_closed` (lines 506-518). -/
def conduit_channel_is_closed {α : Type} (c : Chan α) : Bool :=
  c.closed

/-- `conduit_channel_len` (lines 526-538). -/
def conduit_channel_len {α : Type} (c : Chan α) : Nat :=
  c.count

/-- `conduit_channel_capacity` (lines 546-555). -/
def conduit_channel_capacity {α : Type} (c : Chan α) : Nat :=
  c.capacity

/-- Per-pair readiness check of `conduit_select_poll` (lines 590-605):
send-intent (`is_send = true`): not closed, buffered, and space available;
receive-intent: data buffered, or a pending rendezvous value not yet taken,
or closed. -/
def select_ready {α : Type} (c : Chan α) (is_send : Bool) : Bool :=
  if is_send then
    !c.closed && decide (0 < c.capacity) && decide (c.count < c.capacity)
  else
    decide (0 < c.count) || (c.pending_ready && !c.pending_taken) || c.closed

/-- The scan loop of `conduit_select_poll` (lines 581-615), carrying the
index of the current pair. -/
def select_poll_go {α : Type} : List (Chan α × Bool) → Nat → Option Nat
  | [], _ => none
  | p :: rest, i =>
      if select_ready p.1 p.2 then some i else select_poll_go rest (i + 1)

/-- `conduit_select_poll` (lines 573-619): index of the first ready
(channel, is_send) pair in list order, or `none`. -/
def conduit_select_poll {α : Type} (cases : List (Chan α × Bool)) :
    Option Nat :=
  select_poll_go cases 0

/-- The all-closed scan of `conduit_select_wait` (lines 653-667). -/
def all_closed {α : Type} (cases : List (Chan α × Bool)) : Bool :=
  cases.all fun p => p.1.closed

/-- The poll-sleep loop of `conduit_select_wait` (lines 640-684), embedded
with an explicit environment `σ` giving the (channel, is_send) list as
observed at each iteration (other threads may mutate the channels between
polls) and a fuel bound on the number of loop iterations we unfold.
`some r` means the call returns `r` within `fuel` iterations; `none` means
the loop is still running after `fuel` iterations.  Each iteration: exit
with `none` if `elapsed` has reached a nonzero `timeout_ms` (line 640);
poll and return any hit (lines 642-649); return `none` if every monitored
channel is closed (lines 653-671); else sleep 1ms and add it to `elapsed`
(lines 675-680). -/
def select_wait_go {α : Type} (σ : Nat → List (Chan α × Bool))
    (timeout_ms : Nat) : Nat → Nat → Option (Option Nat)
  | elapsed, 0 =>
      if timeout_ms = 0 ∨ elapsed < timeout_ms then none else some none
  | elapsed, fuel + 1 =>
      if timeout_ms = 0 ∨ elapsed < timeout_ms then
        match conduit_select_poll (σ elapsed) with
        | some i => some (some i)
        | none =>
            if all_closed (σ elapsed) then some none
            else select_wait_go σ timeout_ms (elapsed + 1) fuel
      else some none

/-- `conduit_select_wait` (lines 631-684), started at `elapsed = 0`. -/
def conduit_select_wait {α : Type} (σ : Nat → List (Chan α × Bool))
    (timeout_ms : Nat) (fuel : Nat) : Option (Option Nat) :=
  select_wait_go σ timeout_ms 0 fuel

end Conduit

namespace Conduit

/-!
## Circular-buffer representation invariant

`RepInv c q` states that the buffered channel `c` currently holds exactly the
values of `q`, oldest first, in its circular buffer: slot `(head + i) % capacity`
holds `q[i]`.  This is the abstraction under which the FIFO claims are stated.
-/

/-- Abstraction relation between a buffered channel and the queue it holds. -/
def RepInv {α : Type} [DecidableEq α] (c : Chan α) (q : List α) : Prop :=
  0 < c.capacity ∧
  c.buffer.length = c.capacity ∧
  c.head < c.capacity ∧
  c.tail = (c.head + c.count) % c.capacity ∧
  c.count = q.length ∧
  q.length ≤ c.capacity ∧
  ∀ i < q.length, c.buffer[(c.head + i) % c.capacity]? = some q[i]?

instance {α : Type} [DecidableEq α] (c : Chan α) (q : List α) :
    Decidable (RepInv c q) := by
  unfold RepInv; infer_instance

lemma add_mod_inj {h a b n : Nat} (ha : a < n) (hb : b < n)
    (heq : (h + a) % n = (h + b) % n) : a = b := by
  have hmod : a ≡ b [MOD n] := Nat.ModEq.add_left_cancel' h heq
  have : a % n = b % n := hmod
  rwa [Nat.mod_eq_of_lt ha, Nat.mod_eq_of_lt hb] at this

lemma repInv_new_buffered {α : Type} [DecidableEq α] {cap : Nat} (h : 0 < cap) :
    RepInv (conduit_channel_new_buffered α cap) [] := by
  have hne : cap ≠ 0 := by omega
  unfold conduit_channel_new_buffered
  rw [if_neg hne]
  exact ⟨h, by simp, h, by simp, rfl, by simp, by simp⟩

lemma repInv_enqueue {α : Type} [DecidableEq α] {c : Chan α} {q : List α}
    (v : α) (h : RepInv c q) (hroom : c.count < c.capacity) :
    RepInv (enqueue c v) (q ++ [v]) := by
  obtain ⟨hcap, hlen, hhead, htail, hcount, hle, hslots⟩ := h
  have htail_lt : c.tail < c.capacity := by
    rw [htail]; exact Nat.mod_lt _ hcap
  refine ⟨hcap, ?_, hhead, ?_, ?_, ?_, ?_⟩
  · simpa [enqueue] using hlen
  · simp only [enqueue]
    rw [htail, Nat.mod_add_mod]
    ring_nf
  · simp [enqueue, hcount]
  · simp only [enqueue, List.length_append, List.length_singleton]
    omega
  · intro i hi
    simp only [enqueue]
    rcases Nat.lt_or_ge i q.length with hlt | hge
    · have hne : c.tail ≠ (c.head + i) % c.capacity := by
        rw [htail]
        intro heq
        have : c.count = i := add_mod_inj (by omega) (by omega) heq
        omega
      rw [List.getElem?_set_ne hne, List.getElem?_append_left hlt]
      exact hslots i hlt
    · have hiq : i = q.length := by
        simp only [List.length_append, List.length_singleton] at hi
        omega
      subst hiq
      have hidx : (c.head + q.length) % c.capacity = c.tail := by
        rw [htail, hcount]
      rw [hidx, List.getElem?_set_self (by omega)]
      simp

lemma repInv_dequeue {α : Type} [DecidableEq α] {c : Chan α} {x : α}
    {q : List α} (h : RepInv c (x :: q)) :
    frontVal c = some x ∧ RepInv (dequeue c) q := by
  obtain ⟨hcap, hlen, hhead, htail, hcount, hle, hslots⟩ := h
  have hcount' : c.count = q.length + 1 := by simpa using hcount
  have hle' : q.length + 1 ≤ c.capacity := by simpa using hle
  have hfront : c.buffer[c.head]? = some (some x) := by
    have h0 := hslots 0 (by simp)
    rw [Nat.add_zero, Nat.mod_eq_of_lt hhead] at h0
    simpa using h0
  constructor
  · unfold frontVal
    rw [List.getD_eq_getElem?_getD, hfront]
    rfl
  refine ⟨hcap, ?_, ?_, ?_, ?_, ?_, ?_⟩
  · simpa [dequeue] using hlen
  · simp only [dequeue]; exact Nat.mod_lt _ hcap
  · show c.tail = ((c.head + 1) % c.capacity + (c.count - 1)) % c.capacity
    rw [Nat.mod_add_mod, htail]
    congr 1
    omega
  · show c.count - 1 = q.length
    omega
  · show q.length ≤ c.capacity
    omega
  · intro i hi
    show (c.buffer.set c.head none)[((c.head + 1) % c.capacity + i) % c.capacity]?
        = some q[i]?
    rw [Nat.mod_add_mod]
    have hne : c.head ≠ (c.head + 1 + i) % c.capacity := by
      intro hEq
      have h1 : (c.head + 0) % c.capacity = (c.head + (1 + i)) % c.capacity := by
        have ha : c.head + 1 + i = c.head + (1 + i) := by ring
        rw [Nat.add_zero, Nat.mod_eq_of_lt hhead, ← ha]
        exact hEq
      have h2 : 0 = 1 + i := add_mod_inj hcap (by omega) h1
      omega
    rw [List.getElem?_set_ne hne]
    have hstep := hslots (i + 1) (by simpa using Nat.succ_lt_succ hi)
    have hidx : c.head + 1 + i = c.head + (i + 1) := by ring
    rw [hidx, hstep]
    simp

/-!
## Sequential runs of operations

A single thread performing a sequence of sends and then receives.  The run
aborts (`none`) if any operation blocks on its condition variable: in the
scenarios the FIFO claims describe (at most `capacity` sends, draining after
close) no operation ever blocks, and the lemmas prove exactly that.
-/

/-- Run `conduit_channel_send` once per value of `vs`, collecting the
returned booleans; `none` if any send blocks. -/
def send_seq {α : Type} : Chan α → List α → Option (List Bool × Chan α)
  | c, [] => some ([], c)
  | c, v :: vs =>
    match conduit_channel_send c v with
    | .ret b _ c' =>
      match send_seq c' vs with
      | some (bs, c'') => some (b :: bs, c'')
      | none => none
    | .waits _ => none

/-- Run `conduit_channel_recv` `n` times, collecting the results; `none` if
any receive blocks. -/
def recv_seq {α : Type} : Chan α → Nat → Option (List (Option (Option α)) × Chan α)
  | c, 0 => some ([], c)
  | c, n + 1 =>
    match conduit_channel_recv c with
    | .ret r c' =>
      match recv_seq c' n with
      | some (rs, c'') => some (r :: rs, c'')
      | none => none
    | .waits _ => none

lemma send_seq_rep {α : Type} [DecidableEq α] :
    ∀ (vs : List α) (c : Chan α) (q : List α), RepInv c q → c.closed = false →
      q.length + vs.length ≤ c.capacity →
      ∃ c', send_seq c vs = some (List.replicate vs.length true, c') ∧
        RepInv c' (q ++ vs) ∧ c'.closed = false ∧ c'.capacity = c.capacity
  | [], c, q, h, hcl, _ => by
      refine ⟨c, rfl, by simpa using h, hcl, rfl⟩
  | v :: vs, c, q, h, hcl, hfit => by
      have hcount : c.count = q.length := h.2.2.2.2.1
      have hcap : 0 < c.capacity := h.1
      have hroom : c.count < c.capacity := by
        simp only [List.length_cons] at hfit
        omega
      have hsend : conduit_channel_send c v = .ret true false (enqueue c v) := by
        unfold conduit_channel_send
        rw [if_neg (by simp [hcl]), if_neg (by omega), if_neg (by omega)]
      have hrep' : RepInv (enqueue c v) (q ++ [v]) := repInv_enqueue v h hroom
      have hcl' : (enqueue c v).closed = false := hcl
      have hcap' : (enqueue c v).capacity = c.capacity := rfl
      have hfit' : (q ++ [v]).length + vs.length ≤ (enqueue c v).capacity := by
        simp only [List.length_append, List.length_singleton, hcap']
        simp only [List.length_cons] at hfit
        omega
      obtain ⟨c', hrun, hrep'', hcl'', hcap''⟩ :=
        send_seq_rep vs (enqueue c v) (q ++ [v]) hrep' hcl' hfit'
      refine ⟨c', ?_, by simpa using hrep'', hcl'', by rw [hcap'', hcap']⟩
      simp only [send_seq, hsend, hrun, List.length_cons, List.replicate_succ]

lemma recv_seq_rep {α : Type} [DecidableEq α] :
    ∀ (q : List α) (c : Chan α), RepInv c q →
      ∃ c', recv_seq c q.length = some (q.map (fun v => some (some v)), c') ∧
        RepInv c' [] ∧ c'.closed = c.closed ∧ c'.capacity = c.capacity
  | [], c, h => ⟨c, rfl, h, rfl, rfl⟩
  | x :: q, c, h => by
      have hcap : 0 < c.capacity := h.1
      have hcount : c.count = q.length + 1 := by simpa using h.2.2.2.2.1
      obtain ⟨hfront, hrep'⟩ := repInv_dequeue h
      have hrecv : conduit_channel_recv c
          = .ret (some (frontVal c)) (dequeue c) := by
        unfold conduit_channel_recv
        rw [if_neg (by omega), if_neg (by simp; omega), if_neg (by omega)]
      obtain ⟨c', hrun, hrep'', hcl', hcap'⟩ := recv_seq_rep q (dequeue c) hrep'
      refine ⟨c', ?_, hrep'', hcl', hcap'⟩
      simp only [List.length_cons, recv_seq, hrecv, hrun, List.map_cons, hfront]

lemma recv_closed_drained {α : Type} [DecidableEq α] {c : Chan α}
    (h : RepInv c []) (hcl : c.closed = true) :
    conduit_channel_recv c = .ret none c := by
  have hcap : 0 < c.capacity := h.1
  have hcount : c.count = 0 := by simpa using h.2.2.2.2.1
  unfold conduit_channel_recv
  rw [if_neg (by omega), if_neg (by simp [hcl]), if_pos hcount]

lemma recv_seq_closed_drained {α : Type} [DecidableEq α] {c : Chan α}
    (h : RepInv c []) (hcl : c.closed = true) :
    ∀ m, recv_seq c m = some (List.replicate m none, c) := by
  intro m
  induction m with
  | zero => rfl
  | succ m ih =>
      simp only [recv_seq, recv_closed_drained h hcl, ih, List.replicate_succ]

lemma repInv_close {α : Type} [DecidableEq α] {c : Chan α} {q : List α}
    (h : RepInv c q) : RepInv (conduit_channel_close c).1 q := by
  unfold conduit_channel_close
  split
  · exact h
  · exact h

lemma close_fst_closed {α : Type} (c : Chan α) :
    (conduit_channel_close c).1.closed = true := by
  unfold conduit_channel_close
  split
  · assumption
  · rfl

lemma new_buffered_closed {α : Type} {C : Nat} :
    (conduit_channel_new_buffered α C).closed = false := by
  unfold conduit_channel_new_buffered conduit_channel_new
  split <;> rfl

lemma new_buffered_capacity {α : Type} {C : Nat} (h : 0 < C) :
    (conduit_channel_new_buffered α C).capacity = C := by
  unfold conduit_channel_new_buffered
  rw [if_neg (by omega)]

/-- C1: on a fresh buffered channel of capacity `C`, sending the values of
`vs` (with `vs.length ≤ C`) succeeds with `true` every time, and `vs.length`
subsequent receives return exactly the values of `vs`, in order (strict FIFO
of the circular buffer); no operation blocks. -/
theorem fifo_buffered_send_recv (α : Type) [DecidableEq α] (C : Nat)
    (vs : List α) (hC : 0 < C) (hk : vs.length ≤ C) :
    ∃ c₁ c₂, send_seq (conduit_channel_new_buffered α C) vs
        = some (List.replicate vs.length true, c₁)
      ∧ recv_seq c₁ vs.length = some (vs.map (fun v => some (some v)), c₂) := by
  have hfit : ([] : List α).length + vs.length
      ≤ (conduit_channel_new_buffered α C).capacity := by
    rw [new_buffered_capacity hC]
    simpa using hk
  obtain ⟨c₁, hsend, hrep, hcl, hcap⟩ :=
    send_seq_rep vs (conduit_channel_new_buffered α C) []
      (repInv_new_buffered hC) new_buffered_closed hfit
  have hrep' : RepInv c₁ vs := by simpa using hrep
  obtain ⟨c₂, hrecv, _, _, _⟩ := recv_seq_rep vs c₁ hrep'
  exact ⟨c₁, c₂, hsend, hrecv⟩

/-- Witness for `fifo_buffered_send_recv`: capacity 2, values `[10, 20]`. -/
theorem fifo_buffered_send_recv_witness :
    0 < 2 ∧ ([10, 20] : List Nat).length ≤ 2 ∧
    ∃ c₁ c₂, send_seq (conduit_channel_new_buffered Nat 2) [10, 20]
        = some (List.replicate ([10, 20] : List Nat).length true, c₁)
      ∧ recv_seq c₁ ([10, 20] : List Nat).length
        = some (([10, 20] : List Nat).map (fun v => some (some v)), c₂) :=
  ⟨by decide, by decide,
    fifo_buffered_send_recv Nat 2 [10, 20] (by decide) (by decide)⟩

/-- C2: if a buffered channel holds the queue `q` (so `N = q.length` values)
when `conduit_channel_close` is called, then the next `N` receives return
exactly those values in FIFO order (each present), and every receive after
those returns absent, leaving the state unchanged: close discards nothing. -/
theorem drain_after_close (α : Type) [DecidableEq α] (c : Chan α)
    (q : List α) (h : RepInv c q) :
    ∃ c₂, recv_seq (conduit_channel_close c).1 q.length
        = some (q.map (fun v => some (some v)), c₂)
      ∧ ∀ m, recv_seq c₂ m = some (List.replicate m none, c₂) := by
  obtain ⟨c₂, hrun, hrep₂, hcl₂, _⟩ :=
    recv_seq_rep q (conduit_channel_close c).1 (repInv_close h)
  refine ⟨c₂, hrun, recv_seq_closed_drained hrep₂ ?_⟩
  rw [hcl₂, close_fst_closed]

/-- Witness for `drain_after_close`: a capacity-3 channel holding `[5, 7]`. -/
theorem drain_after_close_witness :
    RepInv (⟨[some 5, some 7, none], 3, 0, 2, 2, none, false, false, false⟩ :
        Chan Nat) [5, 7] ∧
    ∃ c₂, recv_seq (conduit_channel_close
          (⟨[some 5, some 7, none], 3, 0, 2, 2, none, false, false, false⟩ :
            Chan Nat)).1 ([5, 7] : List Nat).length
        = some (([5, 7] : List Nat).map (fun v => some (some v)), c₂)
      ∧ ∀ m, recv_seq c₂ m = some (List.replicate m none, c₂) :=
  ⟨by decide,
    drain_after_close Nat
      ⟨[some 5, some 7, none], 3, 0, 2, 2, none, false, false, false⟩
      [5, 7] (by decide)⟩

/-!
## Direct contracts: try_send, close, failed-send release, count invariant,
try_recv on a closed unbuffered channel
-/

/-- C3: `conduit_channel_try_send` is a tri-state function: on a closed
channel it returns `closed` (value released, state untouched); on an open
unbuffered channel it always returns `wouldBlock` (value released); on an
open buffered channel it returns `wouldBlock` exactly when `count` has
reached `capacity`, and otherwise enqueues the value at `tail` and returns
`ok`.  The hypothesis `count ≤ capacity` is the data-model occupancy
invariant (established for all reachable states by the C7 theorem). -/
theorem try_send_tristate (α : Type) (c : Chan α) (v : α)
    (hinv : c.count ≤ c.capacity) :
    (c.closed = true → conduit_channel_try_send c v = (.closed, true, c)) ∧
    (c.closed = false → c.capacity = 0 →
      conduit_channel_try_send c v = (.wouldBlock, true, c)) ∧
    (c.closed = false → 0 < c.capacity →
      ((conduit_channel_try_send c v).1 = .wouldBlock ↔ c.count = c.capacity)) ∧
    (c.closed = false → 0 < c.capacity → c.count < c.capacity →
      conduit_channel_try_send c v = (.ok, false, enqueue c v)) := by
  refine ⟨?_, ?_, ?_, ?_⟩
  · intro hcl
    unfold conduit_channel_try_send
    rw [if_pos hcl]
  · intro hcl hcap
    unfold conduit_channel_try_send
    rw [if_neg (by simp [hcl]), if_pos hcap]
  · intro hcl hcap
    unfold conduit_channel_try_send
    rw [if_neg (by simp [hcl]), if_neg (by omega)]
    rcases Nat.lt_or_ge c.count c.capacity with hlt | hge
    · rw [if_neg (by omega)]
      simp
      omega
    · rw [if_pos (by omega)]
      simp
      omega
  · intro hcl hcap hroom
    unfold conduit_channel_try_send
    rw [if_neg (by simp [hcl]), if_neg (by omega), if_neg (by omega)]

/-- Witness for `try_send_tristate`: a full capacity-1 channel holding one
value would-blocks, and the same channel closed reports closed. -/
theorem try_send_tristate_witness :
    ((⟨[some 4], 1, 0, 0, 1, none, false, false, false⟩ : Chan Nat).count
      ≤ (⟨[some 4], 1, 0, 0, 1, none, false, false, false⟩ : Chan Nat).capacity)
    ∧ ((conduit_channel_try_send
        (⟨[some 4], 1, 0, 0, 1, none, false, false, false⟩ : Chan Nat) 9).1
          = .wouldBlock
        ↔ (⟨[some 4], 1, 0, 0, 1, none, false, false, false⟩ : Chan Nat).count
          = (⟨[some 4], 1, 0, 0, 1, none, false, false, false⟩ :
              Chan Nat).capacity) :=
  ⟨by decide,
    (try_send_tristate Nat ⟨[some 4], 1, 0, 0, 1, none, false, false, false⟩ 9
      (by decide)).2.2.1 rfl (by decide)⟩

/-- C5: `conduit_channel_close` is idempotent: closing twice yields the same
state as closing once, the second call broadcasts nothing, so the combined
observable effects of two calls equal those of one; the first call on an
open channel sets `closed` and broadcasts on both condition variables, and a
call on a closed channel is a no-op. -/
theorem close_idempotent (α : Type) (c : Chan α) :
    (conduit_channel_close (conduit_channel_close c).1).1
      = (conduit_channel_close c).1 ∧
    (conduit_channel_close (conduit_channel_close c).1).2 = [] ∧
    (conduit_channel_close c).2
        ++ (conduit_channel_close (conduit_channel_close c).1).2
      = (conduit_channel_close c).2 ∧
    (c.closed = false → conduit_channel_close c
      = ({ c with closed := true }, [CondVar.not_empty, CondVar.not_full])) ∧
    (c.closed = true → conduit_channel_close c = (c, [])) := by
  unfold conduit_channel_close
  rcases hb : c.closed with _ | _ <;> simp [hb]

/-- Witness for `close_idempotent`: closing a fresh unbuffered channel. -/
theorem close_idempotent_witness :
    conduit_channel_close (conduit_channel_new Nat)
      = ({ conduit_channel_new Nat with closed := true },
          [CondVar.not_empty, CondVar.not_full]) :=
  (close_idempotent Nat (conduit_channel_new Nat)).2.2.2.1 rfl

/-- C6: on a channel whose `closed` flag is set, `conduit_channel_send`
returns `false` immediately (it does not block), releases the value, and
leaves the state unchanged; and any `conduit_channel_try_send` whose result
is not `ok` reports the value as released. -/
theorem failed_send_releases (α : Type) (c : Chan α) (v : α) :
    (c.closed = true → conduit_channel_send c v = .ret false true c) ∧
    ((conduit_channel_try_send c v).1 ≠ .ok →
      (conduit_channel_try_send c v).2.1 = true) := by
  constructor
  · intro hcl
    unfold conduit_channel_send
    rw [if_pos hcl]
  · intro hne
    unfold conduit_channel_try_send at hne ⊢
    split
    · rfl
    · split
      · rfl
      · split
        · rfl
        · exfalso
          apply hne
          simp_all

/-- Witness for `failed_send_releases`: sending on a closed channel. -/
theorem failed_send_releases_witness :
    conduit_channel_send
        (⟨[], 0, 0, 0, 0, none, false, false, true⟩ : Chan Nat) 3
      = .ret false true ⟨[], 0, 0, 0, 0, none, false, false, true⟩ :=
  (failed_send_releases Nat ⟨[], 0, 0, 0, 0, none, false, false, true⟩ 3).1 rfl

/-- C10: on an unbuffered channel, `conduit_channel_try_recv` gives the
unclaimed pending value priority over the closed flag: if the channel is
closed but `pending_ready ∧ ¬pending_taken` holds, the result is `ok` with
the pending value (not `closed`); and the result is `closed` exactly when
the channel is closed and no unclaimed pending value exists. -/
theorem try_recv_pending_beats_closed (α : Type) (c : Chan α) (v : α)
    (hcap : c.capacity = 0) :
    (c.pending_ready = true → c.pending_taken = false →
      c.pending_value = some v →
      conduit_channel_try_recv c = (.ok (some v), claim c)) ∧
    ((conduit_channel_try_recv c).1 = .closed ↔
      c.closed = true
        ∧ ¬(c.pending_ready = true ∧ c.pending_taken = false)) := by
  constructor
  · intro hr ht hv
    unfold conduit_channel_try_recv
    rw [if_pos hcap, if_pos (by simp [hr, ht]), hv]
  · unfold conduit_channel_try_recv
    rw [if_pos hcap]
    rcases hr : c.pending_ready with _ | _ <;>
      rcases ht : c.pending_taken with _ | _ <;>
        rcases hcl : c.closed with _ | _ <;> simp

/-- Witness for `try_recv_pending_beats_closed`: a closed unbuffered channel
with an unclaimed pending `42` yields `ok 42`. -/
theorem try_recv_pending_beats_closed_witness :
    conduit_channel_try_recv
        (⟨[], 0, 0, 0, 0, some 42, true, false, true⟩ : Chan Nat)
      = (.ok (some 42),
          claim (⟨[], 0, 0, 0, 0, some 42, true, false, true⟩ : Chan Nat)) :=
  (try_recv_pending_beats_closed Nat
      ⟨[], 0, 0, 0, 0, some 42, true, false, true⟩ 42 rfl).1 rfl rfl rfl

/-- The occupancy invariant of the data model: `count` never exceeds
`capacity` (`0 ≤ count` holds by the `Nat` type). -/
def CountInv {α : Type} (c : Chan α) : Prop :=
  c.count ≤ c.capacity

instance {α : Type} (c : Chan α) : Decidable (CountInv c) := by
  unfold CountInv; infer_instance

/-- C7: `count ≤ capacity` holds for freshly constructed channels and is
preserved by every critical section of every operation — send (entry and
both wakeup paths), recv, try_send, try_recv, and close — whether the
section completes or blocks; consequently `conduit_channel_len` never
exceeds `conduit_channel_capacity`. -/
theorem count_le_capacity_invariant (α : Type) :
    CountInv (conduit_channel_new α) ∧
    (∀ C, CountInv (conduit_channel_new_buffered α C)) ∧
    (∀ (c : Chan α) (v : α), CountInv c →
      CountInv (conduit_channel_send c v).state) ∧
    (∀ (c : Chan α) (v : α), CountInv c →
      CountInv (send_buffered_resume c v).state) ∧
    (∀ c : Chan α, CountInv c →
      CountInv (send_unbuffered_resume c).state) ∧
    (∀ c : Chan α, CountInv c →
      CountInv (conduit_channel_recv c).state) ∧
    (∀ (c : Chan α) (v : α), CountInv c →
      CountInv (conduit_channel_try_send c v).2.2) ∧
    (∀ c : Chan α, CountInv c →
      CountInv (conduit_channel_try_recv c).2) ∧
    (∀ c : Chan α, CountInv c →
      CountInv (conduit_channel_close c).1) ∧
    (∀ c : Chan α, CountInv c →
      conduit_channel_len c ≤ conduit_channel_capacity c) := by
  refine ⟨?_, ?_, ?_, ?_, ?_, ?_, ?_, ?_, ?_, ?_⟩
  · exact Nat.le_refl 0
  · intro C
    unfold conduit_channel_new_buffered conduit_channel_new CountInv
    split <;> simp
  · intro c v h
    unfold conduit_channel_send
    split
    · exact h
    · split
      · exact h
      · split
        · exact h
        · unfold CountInv at h ⊢
          simp [SendOutcome.state, enqueue]
          omega
  · intro c v h
    unfold send_buffered_resume
    split
    · exact h
    · split
      · exact h
      · unfold CountInv at h ⊢
        simp [SendOutcome.state, enqueue]
        rename_i h1 h2
        rcases Nat.lt_or_ge c.count c.capacity with hlt | hge
        · omega
        · exact absurd ⟨hge, h2⟩ h1
  · intro c h
    unfold send_unbuffered_resume
    split
    · exact h
    · exact h
  · intro c h
    unfold conduit_channel_recv
    split
    · split
      · exact h
      · split
        · exact h
        · exact h
    · split
      · exact h
      · split
        · exact h
        · unfold CountInv at h ⊢
          simp [RecvOutcome.state, dequeue]
          omega
  · intro c v h
    unfold conduit_channel_try_send
    split
    · exact h
    · split
      · exact h
      · split
        · exact h
        · unfold CountInv at h ⊢
          simp [SendOutcome.state, enqueue]
          omega
  · intro c h
    unfold conduit_channel_try_recv
    split
    · split
      · exact h
      · split
        · exact h
        · exact h
    · split
      · split
        · exact h
        · exact h
      · unfold CountInv at h ⊢
        simp [RecvOutcome.state, dequeue]
        omega
  · intro c h
    unfold conduit_channel_close
    split
    · exact h
    · exact h
  · intro c h
    exact h

/-- Witness for `count_le_capacity_invariant`: enqueueing into a capacity-2
channel holding one value keeps `count ≤ capacity`. -/
theorem count_le_capacity_invariant_witness :
    CountInv ((conduit_channel_send
      (⟨[some 1, none], 2, 0, 1, 1, none, false, false, false⟩ : Chan Nat)
      8).state) :=
  (count_le_capacity_invariant Nat).2.2.1
    ⟨[some 1, none], 2, 0, 1, 1, none, false, false, false⟩ 8 (by decide)

/-!
## Select/poll multiplexer: first-ready characterization
-/

/-- Readiness of a (channel, direction) pair in the words of the spec
(§4.7): send-intent ready iff the channel is open, buffered, and has space;
receive-intent ready iff data is buffered, or the channel is unbuffered with
an unclaimed pending value, or the channel is closed.  To be compared with
the code's `select_ready`. -/
def ready_spec {α : Type} (c : Chan α) (is_send : Bool) : Prop :=
  if is_send then
    c.closed = false ∧ 0 < c.capacity ∧ c.count < c.capacity
  else
    0 < c.count
      ∨ (c.capacity = 0 ∧ c.pending_ready = true ∧ c.pending_taken = false)
      ∨ c.closed = true

instance {α : Type} (c : Chan α) (s : Bool) : Decidable (ready_spec c s) := by
  unfold ready_spec; infer_instance

/-- The pair at position `i` of the select list exists and is ready. -/
def ready_at {α : Type} (cases : List (Chan α × Bool)) (i : Nat) : Prop :=
  ∃ p, cases[i]? = some p ∧ ready_spec p.1 p.2

instance {α : Type} (cases : List (Chan α × Bool)) (i : Nat) :
    Decidable (ready_at cases i) := by
  unfold ready_at
  rcases cases[i]? with _ | p
  · exact isFalse (by simp)
  · exact decidable_of_iff (ready_spec p.1 p.2) (by simp)

/-- The code's readiness test agrees with the spec's whenever
`pending_ready` implies the channel is unbuffered (true of every reachable
state: only the `capacity == 0` branch of send sets `pending_ready`). -/
lemma select_ready_iff_ready_spec {α : Type} {c : Chan α} (s : Bool)
    (hp : c.pending_ready = true → c.capacity = 0) :
    select_ready c s = true ↔ ready_spec c s := by
  unfold select_ready ready_spec
  cases s
  · simp only [if_neg Bool.false_ne_true, Bool.or_eq_true, Bool.and_eq_true,
      decide_eq_true_eq, Bool.not_eq_true']
    constructor
    · rintro ((h | ⟨h1, h2⟩) | h)
      · exact Or.inl h
      · exact Or.inr (Or.inl ⟨hp h1, h1, h2⟩)
      · exact Or.inr (Or.inr h)
    · rintro (h | ⟨_, h1, h2⟩ | h)
      · exact Or.inl (Or.inl h)
      · exact Or.inl (Or.inr ⟨h1, h2⟩)
      · exact Or.inr h
  · simp [Bool.not_eq_true', and_assoc]

lemma ready_at_nil {α : Type} (i : Nat) :
    ¬ ready_at ([] : List (Chan α × Bool)) i := by
  rintro ⟨p, hp, _⟩
  simp at hp

lemma ready_at_cons_zero {α : Type} {p : Chan α × Bool}
    {rest : List (Chan α × Bool)} :
    ready_at (p :: rest) 0 ↔ ready_spec p.1 p.2 := by
  unfold ready_at
  simp

lemma ready_at_cons_succ {α : Type} {p : Chan α × Bool}
    {rest : List (Chan α × Bool)} {j : Nat} :
    ready_at (p :: rest) (j + 1) ↔ ready_at rest j := by
  unfold ready_at
  simp

lemma select_poll_go_succ {α : Type} :
    ∀ (cases : List (Chan α × Bool)) (k : Nat),
      select_poll_go cases (k + 1) = (select_poll_go cases k).map (· + 1)
  | [], _ => rfl
  | p :: rest, k => by
      unfold select_poll_go
      split
      · rfl
      · exact select_poll_go_succ rest (k + 1)

lemma select_poll_cons {α : Type} (p : Chan α × Bool)
    (rest : List (Chan α × Bool)) :
    conduit_select_poll (p :: rest)
      = if select_ready p.1 p.2 then some 0
        else (conduit_select_poll rest).map (· + 1) := by
  have h : select_poll_go (p :: rest) 0
      = if select_ready p.1 p.2 then some 0 else select_poll_go rest 1 := rfl
  unfold conduit_select_poll
  rw [h]
  split
  · rfl
  · exact select_poll_go_succ rest 0

/-- C4: `conduit_select_poll` returns `some i` exactly when the pair at
index `i` is ready (in the spec's sense) and no pair at a lower index is —
the deterministic lowest-ready-index tie-break — and returns `none` exactly
when no pair is ready.  The hypothesis (`pending_ready` only on unbuffered
channels) holds of every reachable state. -/
theorem select_poll_first_ready (α : Type) :
    ∀ cases : List (Chan α × Bool),
      (∀ p ∈ cases, p.1.pending_ready = true → p.1.capacity = 0) →
      (∀ i, conduit_select_poll cases = some i ↔
          ready_at cases i ∧ ∀ j < i, ¬ ready_at cases j) ∧
      (conduit_select_poll cases = none ↔ ∀ j, ¬ ready_at cases j)
  | [], _ => by
      constructor
      · intro i
        constructor
        · intro h
          cases h
        · rintro ⟨h, _⟩
          exact absurd h (ready_at_nil i)
      · simp only [conduit_select_poll, select_poll_go, true_iff]
        exact ready_at_nil
  | p :: rest, hp => by
      have hp_p := hp p (List.mem_cons_self p rest)
      have hp_rest : ∀ q ∈ rest, q.1.pending_ready = true → q.1.capacity = 0 :=
        fun q hq => hp q (List.mem_cons_of_mem p hq)
      have ih := select_poll_first_ready α rest hp_rest
      have hiff := select_ready_iff_ready_spec (c := p.1) p.2 hp_p
      rw [select_poll_cons]
      rcases hb : select_ready p.1 p.2 with _ | _
      · have hns : ¬ ready_spec p.1 p.2 := by
          rw [← hiff, hb]
          simp
        rw [if_neg Bool.false_ne_true]
        constructor
        · intro i
          constructor
          · intro h
            rcases hm : conduit_select_poll rest with _ | i'
            · rw [hm] at h
              cases h
            · rw [hm] at h
              obtain rfl : i' + 1 = i := by simpa using h
              obtain ⟨h1, h2⟩ := (ih.1 i').mp hm
              refine ⟨ready_at_cons_succ.mpr h1, ?_⟩
              intro j hj
              cases j with
              | zero => exact fun hr => hns (ready_at_cons_zero.mp hr)
              | succ j' =>
                  intro hr
                  exact h2 j' (by omega) (ready_at_cons_succ.mp hr)
          · rintro ⟨h1, h2⟩
            cases i with
            | zero => exact absurd (ready_at_cons_zero.mp h1) hns
            | succ i' =>
                have h1' := ready_at_cons_succ.mp h1
                have h2' : ∀ j < i', ¬ ready_at rest j := by
                  intro j hj hr
                  exact h2 (j + 1) (by omega) (ready_at_cons_succ.mpr hr)
                rw [(ih.1 i').mpr ⟨h1', h2'⟩]
                rfl
        · constructor
          · intro h
            have hm : conduit_select_poll rest = none := by
              rcases hm : conduit_select_poll rest with _ | i'
              · rfl
              · rw [hm] at h
                cases h
            have := ih.2.mp hm
            intro j
            cases j with
            | zero => exact fun hr => hns (ready_at_cons_zero.mp hr)
            | succ j' => exact fun hr => this j' (ready_at_cons_succ.mp hr)
          · intro h
            have : ∀ j, ¬ ready_at rest j := fun j hr =>
              h (j + 1) (ready_at_cons_succ.mpr hr)
            rw [ih.2.mpr this]
            rfl
      · have hs : ready_spec p.1 p.2 := hiff.mp hb
        simp only [if_pos rfl]
        constructor
        · intro i
          constructor
          · intro h
            obtain rfl : (0 : Nat) = i := by simpa using h
            exact ⟨ready_at_cons_zero.mpr hs, by omega⟩
          · rintro ⟨h1, h2⟩
            cases i with
            | zero => rfl
            | succ i' =>
                exact absurd (ready_at_cons_zero.mpr hs) (h2 0 (by omega))
        · constructor
          · intro h
            cases h
          · intro h
            exact absurd (ready_at_cons_zero.mpr hs) (h 0)

/-- Witness for `select_poll_first_ready`: polling
`[(empty open, recv), (has data, recv)]` selects index 1, the lowest ready
index. -/
theorem select_poll_first_ready_witness :
    ready_at
        [((⟨[none, none], 2, 0, 0, 0, none, false, false, false⟩ : Chan Nat),
            false),
          ((⟨[some 3, none], 2, 0, 1, 1, none, false, false, false⟩ :
              Chan Nat), false)] 1
      ∧ ∀ j < 1, ¬ ready_at
        [((⟨[none, none], 2, 0, 0, 0, none, false, false, false⟩ : Chan Nat),
            false),
          ((⟨[some 3, none], 2, 0, 1, 1, none, false, false, false⟩ :
              Chan Nat), false)] j :=
  ((select_poll_first_ready Nat
      [(⟨[none, none], 2, 0, 0, 0, none, false, false, false⟩, false),
        (⟨[some 3, none], 2, 0, 1, 1, none, false, false, false⟩, false)]
      (by decide)).1 1).mp (by decide)

/-!
## select_wait: poll-sleep loop contract
-/

lemma select_wait_go_poll_some {α : Type} (σ : Nat → List (Chan α × Bool))
    (t elapsed fuel i : Nat) (hg : t = 0 ∨ elapsed < t)
    (hpoll : conduit_select_poll (σ elapsed) = some i) :
    select_wait_go σ t elapsed (fuel + 1) = some (some i) := by
  unfold select_wait_go
  rw [if_pos hg, hpoll]

lemma select_wait_go_all_closed {α : Type} (σ : Nat → List (Chan α × Bool))
    (t elapsed fuel : Nat) (hg : t = 0 ∨ elapsed < t)
    (hpoll : conduit_select_poll (σ elapsed) = none)
    (hac : all_closed (σ elapsed) = true) :
    select_wait_go σ t elapsed (fuel + 1) = some none := by
  unfold select_wait_go
  rw [if_pos hg, hpoll, if_pos hac]

lemma select_wait_go_step {α : Type} (σ : Nat → List (Chan α × Bool))
    (t elapsed fuel : Nat) (hg : t = 0 ∨ elapsed < t)
    (hpoll : conduit_select_poll (σ elapsed) = none)
    (hac : all_closed (σ elapsed) = false) :
    select_wait_go σ t elapsed (fuel + 1)
      = select_wait_go σ t (elapsed + 1) fuel := by
  conv_lhs => unfold select_wait_go
  rw [if_pos hg, hpoll, hac]
  rw [if_neg Bool.false_ne_true]

lemma select_wait_go_runs_out {α : Type} (σ : Nat → List (Chan α × Bool))
    (t : Nat) (ht : 0 < t)
    (hline : ∀ e, conduit_select_poll (σ e) = none ∧ all_closed (σ e) = false) :
    ∀ fuel elapsed, t ≤ elapsed + fuel →
      select_wait_go σ t elapsed fuel = some none := by
  intro fuel
  induction fuel with
  | zero =>
      intro elapsed hle
      unfold select_wait_go
      rw [if_neg (by omega)]
  | succ fuel ih =>
      intro elapsed hle
      by_cases hg : t = 0 ∨ elapsed < t
      · rw [select_wait_go_step σ t elapsed fuel hg (hline elapsed).1
          (hline elapsed).2]
        exact ih (elapsed + 1) (by omega)
      · unfold select_wait_go
        rw [if_neg hg]

lemma select_wait_go_no_bound {α : Type} (σ : Nat → List (Chan α × Bool))
    (hline : ∀ e, conduit_select_poll (σ e) = none ∧ all_closed (σ e) = false) :
    ∀ fuel elapsed, select_wait_go σ 0 elapsed fuel = none := by
  intro fuel
  induction fuel with
  | zero =>
      intro elapsed
      unfold select_wait_go
      rw [if_pos (Or.inl rfl)]
  | succ fuel ih =>
      intro elapsed
      rw [select_wait_go_step σ 0 elapsed fuel (Or.inl rfl) (hline elapsed).1
        (hline elapsed).2]
      exact ih (elapsed + 1)

/-- C8: the `conduit_select_wait` loop (over an environment `σ` of observed
channel states, with any positive amount of loop fuel available):
(1) whenever the first poll finds a ready pair, `select_wait` returns
exactly the index `select_poll` returns; (2) when no pair is ready and every
monitored channel is closed, it returns absent on the first iteration,
before any sleep; (3) with `timeout_ms = t > 0`, if no poll ever finds a
ready pair and the channels are never all closed, it returns absent as soon
as the accumulated elapsed time reaches `t` (any fuel ≥ t); (4) with
`timeout_ms = 0` it has no time bound: under the same never-ready
assumption the loop is still running after every finite number of
iterations. -/
theorem select_wait_contract (α : Type) (σ : Nat → List (Chan α × Bool))
    (t : Nat) :
    (∀ i fuel, 0 < fuel → conduit_select_poll (σ 0) = some i →
      conduit_select_wait σ t fuel = some (some i)) ∧
    (conduit_select_poll (σ 0) = none → all_closed (σ 0) = true →
      ∀ fuel, 0 < fuel → conduit_select_wait σ t fuel = some none) ∧
    (0 < t →
      (∀ e, conduit_select_poll (σ e) = none ∧ all_closed (σ e) = false) →
      ∀ fuel, t ≤ fuel → conduit_select_wait σ t fuel = some none) ∧
    (t = 0 →
      (∀ e, conduit_select_poll (σ e) = none ∧ all_closed (σ e) = false) →
      ∀ fuel, conduit_select_wait σ t fuel = none) := by
  refine ⟨?_, ?_, ?_, ?_⟩
  · intro i fuel hf hpoll
    rcases fuel with _ | f
    · omega
    · exact select_wait_go_poll_some σ t 0 f i (by omega) hpoll
  · intro hpoll hac fuel hf
    rcases fuel with _ | f
    · omega
    · exact select_wait_go_all_closed σ t 0 f (by omega) hpoll hac
  · intro ht hline fuel hf
    exact select_wait_go_runs_out σ t ht hline fuel 0 (by omega)
  · intro ht hline fuel
    subst ht
    exact select_wait_go_no_bound σ hline fuel 0

/-- Witness for `select_wait_contract`: waiting on a single closed channel
with receive intent returns index 0 on the first poll. -/
theorem select_wait_contract_witness :
    conduit_select_wait
        (fun _ => [((⟨[], 0, 0, 0, 0, none, false, false, true⟩ : Chan Nat),
          false)]) 5 3
      = some (some 0) :=
  (select_wait_contract Nat
      (fun _ => [(⟨[], 0, 0, 0, 0, none, false, false, true⟩, false)]) 5).1
    0 3 (by decide) (by decide)

/-!
## Unbuffered rendezvous under arbitrary interleavings

To settle the concurrency claim we model the unbuffered handoff protocol
(lines 231-257, 298-323, 420-443, 480-500 of conduit_ffi.c, restricted to a
`capacity == 0` channel) as a small-step transition system.  The shared
state is the rendezvous slot of the C struct; each thread is reduced to the
positions at which it may hold the mutex — the code between two
`pthread_cond_wait` calls runs atomically under the mutex and becomes one
transition.  Wakeups are over-approximated: a thread blocked on a condition
variable may re-run its loop check at any moment (covering all signalled,
broadcast and spurious wakeups POSIX allows), so every real interleaving is
a trace of this system.  Payloads are naturals; `log` records, in order,
the payload returned by every receive that claims a value.
-/

/-- The rendezvous-slot fields of `conduit_channel_t` for an unbuffered
channel: `pending_value`, `pending_ready`, `pending_taken`, `closed`. -/
structure USlot where
  value : Option Nat
  ready : Bool
  taken : Bool
  closed : Bool
  deriving Repr, DecidableEq

/-- Control position of a thread running `conduit_channel_send(ch, v)` on an
unbuffered channel: `start` = about to acquire the mutex (line 222);
`waiting` = blocked in `pthread_cond_wait(&not_full)` after depositing
(line 242); `done b` = returned `b`. -/
inductive SPhase where
  | start
  | waiting
  | done (b : Bool)
  deriving Repr, DecidableEq

/-- An unbuffered-send thread: the payload it sends and where it stands. -/
structure SenderTh where
  val : Nat
  phase : SPhase
  deriving Repr, DecidableEq

/-- Control position of a receiver thread (`conduit_channel_recv` when
`blocking`, `conduit_channel_try_recv` otherwise): `waiting` = blocked in
`pthread_cond_wait(&not_empty)` (line 301); `doneVal p` = returned payload
`p`; `doneNone` = returned none / empty / closed. -/
inductive RPhase where
  | start
  | waiting
  | doneVal (p : Option Nat)
  | doneNone
  deriving Repr, DecidableEq

/-- A receiver thread. -/
structure RecvTh where
  blocking : Bool
  phase : RPhase
  deriving Repr, DecidableEq

/-- Global state: the rendezvous slot, partial maps from thread ids to
sender/receiver threads, and the ordered log of payloads claimed by
receives. -/
structure Sys where
  slot : USlot
  senders : Nat → Option SenderTh
  receivers : Nat → Option RecvTh
  log : List (Option Nat)

/-- Replace the sender thread at id `i`. -/
def updS (f : Nat → Option SenderTh) (i : Nat) (th : SenderTh) :
    Nat → Option SenderTh :=
  fun k => if k = i then some th else f k

/-- Replace the receiver thread at id `j`. -/
def updR (f : Nat → Option RecvTh) (j : Nat) (th : RecvTh) :
    Nat → Option RecvTh :=
  fun k => if k = j then some th else f k

/-- One atomic (mutex-protected) transition of the system.  Each constructor
is one critical section of conduit_ffi.c specialised to `capacity == 0`:
- `send_closed`: lines 225-229, closed at entry, return false;
- `send_deposit`: lines 231-242, deposit into the slot and block (the wait
  loop is entered because `taken` was just cleared and `closed` was just
  checked, under the continuously held mutex);
- `send_wake`: lines 241-257, re-check the loop `!taken && !closed`; on
  exit record `success = taken`, reset the slot, return `success`;
- `recv_wait`: lines 300-302, wait loop entered when `!ready && !closed`;
- `recv_claim`: lines 304-318 (and 422-433 for try_recv), claim the pending
  value when `ready && !taken`, append it to the log;
- `recv_none`: lines 320-323, loop exited (`ready || closed`) but the claim
  guard fails: return none;
- `try_recv_none`: lines 435-443, non-blocking receiver finds no claimable
  value and returns closed/empty without waiting;
- `close_step`: lines 487-497, set `closed` (a no-op when already set,
  which the unconditional write also is). -/
inductive Step : Sys → Sys → Prop where
  | send_closed (s : Sys) (i : Nat) (th : SenderTh)
      (hi : s.senders i = some th) (hph : th.phase = .start)
      (hcl : s.slot.closed = true) :
      Step s { s with
        senders := updS s.senders i { th with phase := .done false } }
  | send_deposit (s : Sys) (i : Nat) (th : SenderTh)
      (hi : s.senders i = some th) (hph : th.phase = .start)
      (hcl : s.slot.closed = false) :
      Step s { s with
        slot := { s.slot with
          value := some th.val, ready := true, taken := false }
        senders := updS s.senders i { th with phase := .waiting } }
  | send_wake (s : Sys) (i : Nat) (th : SenderTh)
      (hi : s.senders i = some th) (hph : th.phase = .waiting)
      (hw : s.slot.taken = true ∨ s.slot.closed = true) :
      Step s { s with
        slot := { s.slot with value := none, ready := false, taken := false }
        senders := updS s.senders i { th with phase := .done s.slot.taken } }
  | recv_wait (s : Sys) (j : Nat) (th : RecvTh)
      (hj : s.receivers j = some th) (hph : th.phase = .start)
      (hb : th.blocking = true)
      (hr : s.slot.ready = false) (hcl : s.slot.closed = false) :
      Step s { s with
        receivers := updR s.receivers j { th with phase := .waiting } }
  | recv_claim (s : Sys) (j : Nat) (th : RecvTh)
      (hj : s.receivers j = some th)
      (hph : th.phase = .start ∨ th.phase = .waiting)
      (hr : s.slot.ready = true) (ht : s.slot.taken = false) :
      Step s { s with
        slot := { s.slot with ready := false, taken := true }
        receivers := updR s.receivers j { th with
          phase := .doneVal s.slot.value }
        log := s.log ++ [s.slot.value] }
  | recv_none (s : Sys) (j : Nat) (th : RecvTh)
      (hj : s.receivers j = some th)
      (hph : th.phase = .start ∨ th.phase = .waiting)
      (hwake : s.slot.ready = true ∨ s.slot.closed = true)
      (hnc : ¬(s.slot.ready = true ∧ s.slot.taken = false)) :
      Step s { s with
        receivers := updR s.receivers j { th with phase := .doneNone } }
  | try_recv_none (s : Sys) (j : Nat) (th : RecvTh)
      (hj : s.receivers j = some th) (hph : th.phase = .start)
      (hb : th.blocking = false)
      (hnc : ¬(s.slot.ready = true ∧ s.slot.taken = false)) :
      Step s { s with
        receivers := updR s.receivers j { th with phase := .doneNone } }
  | close_step (s : Sys) :
      Step s { s with slot := { s.slot with closed := true } }

/-- Reflexive-transitive closure of `Step`: all finite interleavings. -/
def Reachable : Sys → Sys → Prop :=
  Relation.ReflTransGen Step

/-- Sender payloads are pairwise distinct, so a payload identifies the
deposit that produced it. -/
def distinctVals (f : Nat → Option SenderTh) : Prop :=
  ∀ i j thi thj, f i = some thi → f j = some thj → i ≠ j →
    thi.val ≠ thj.val

/-- Initial configurations: empty open slot, empty log, every thread at
`start`, distinct sender payloads. -/
def Init (s : Sys) : Prop :=
  s.slot = ⟨none, false, false, false⟩ ∧
  s.log = [] ∧
  (∀ i th, s.senders i = some th → th.phase = SPhase.start) ∧
  distinctVals s.senders

/-- Inductive invariant: the log never repeats a payload; sender payloads
stay distinct; a sender still at `start` has a payload that is neither in
the log nor currently in a ready slot; a claimable slot holds a payload not
yet in the log. -/
def SysInv (s : Sys) : Prop :=
  s.log.Nodup ∧
  distinctVals s.senders ∧
  (∀ i th, s.senders i = some th → th.phase = SPhase.start →
    (some th.val) ∉ s.log ∧
    (s.slot.ready = true → s.slot.value ≠ some th.val)) ∧
  (s.slot.ready = true → s.slot.taken = false → s.slot.value ∉ s.log)

lemma updS_same (f : Nat → Option SenderTh) (i : Nat) (th : SenderTh) :
    updS f i th i = some th := by
  unfold updS
  simp

lemma updS_other (f : Nat → Option SenderTh) (i : Nat) (th : SenderTh)
    (k : Nat) (h : k ≠ i) : updS f i th k = f k := by
  unfold updS
  simp [h]

lemma distinctVals_updS {f : Nat → Option SenderTh} {i : Nat}
    {th th' : SenderTh} (hi : f i = some th) (hval : th'.val = th.val)
    (hd : distinctVals f) : distinctVals (updS f i th') := by
  intro k l thk thl hk hl hne
  unfold updS at hk hl
  by_cases hki : k = i <;> by_cases hli : l = i
  · exact absurd (hki.trans hli.symm) hne
  · rw [if_pos hki] at hk
    rw [if_neg hli] at hl
    injection hk with hk
    rw [← hk, hval]
    exact hd i l th thl hi hl (fun h => hne (hki.trans h))
  · rw [if_neg hki] at hk
    rw [if_pos hli] at hl
    injection hl with hl
    rw [← hl, hval]
    exact hd k i thk th hk hi (fun h => hki h)
  · rw [if_neg hki] at hk
    rw [if_neg hli] at hl
    exact hd k l thk thl hk hl hne

lemma step_inv {s s' : Sys} (hstep : Step s s') (hinv : SysInv s) :
    SysInv s' := by
  obtain ⟨hnd, hdv, hstart, hslot⟩ := hinv
  cases hstep with
  | send_closed i th hi hph hcl =>
      refine ⟨hnd, distinctVals_updS hi rfl hdv, ?_, hslot⟩
      intro k th'' hk hph''
      simp only [updS] at hk
      by_cases hki : k = i
      · rw [if_pos hki] at hk
        injection hk with hk
        rw [← hk] at hph''
        cases hph''
      · rw [if_neg hki] at hk
        exact hstart k th'' hk hph''
  | send_deposit i th hi hph hcl =>
      refine ⟨hnd, distinctVals_updS hi rfl hdv, ?_, ?_⟩
      · intro k th'' hk hph''
        simp only [updS] at hk
        by_cases hki : k = i
        · rw [if_pos hki] at hk
          injection hk with hk
          rw [← hk] at hph''
          cases hph''
        · rw [if_neg hki] at hk
          refine ⟨(hstart k th'' hk hph'').1, ?_⟩
          intro _ hEq
          injection hEq with hEq
          exact hdv i k th th'' hi hk (fun h => hki h.symm) hEq
      · intro _ _
        exact (hstart i th hi hph).1
  | send_wake i th hi hph hw =>
      refine ⟨hnd, distinctVals_updS hi rfl hdv, ?_, ?_⟩
      · intro k th'' hk hph''
        simp only [updS] at hk
        by_cases hki : k = i
        · rw [if_pos hki] at hk
          injection hk with hk
          rw [← hk] at hph''
          cases hph''
        · rw [if_neg hki] at hk
          refine ⟨(hstart k th'' hk hph'').1, ?_⟩
          intro h
          exact Bool.noConfusion h
      · intro h
        exact Bool.noConfusion h
  | recv_wait j th hj hph hb hr hcl =>
      exact ⟨hnd, hdv, hstart, hslot⟩
  | recv_claim j th hj hph hr ht =>
      refine ⟨?_, hdv, ?_, ?_⟩
      · have hnotin : s.slot.value ∉ s.log := hslot hr ht
        simp [List.nodup_append, hnd, hnotin]
      · intro k th'' hk hph''
        obtain ⟨hlog, hready⟩ := hstart k th'' hk hph''
        refine ⟨?_, ?_⟩
        · simp only [List.mem_append, List.mem_singleton]
          rintro (h | h)
          · exact hlog h
          · exact hready hr h.symm
        · intro h
          exact Bool.noConfusion h
      · intro h
        exact Bool.noConfusion h
  | recv_none j th hj hph hwake hnc =>
      exact ⟨hnd, hdv, hstart, hslot⟩
  | try_recv_none j th hj hph hb hnc =>
      exact ⟨hnd, hdv, hstart, hslot⟩
  | close_step =>
      exact ⟨hnd, hdv, hstart, hslot⟩

lemma init_inv {s : Sys} (h : Init s) : SysInv s := by
  obtain ⟨hslot, hlog, hstart, hdv⟩ := h
  refine ⟨?_, hdv, ?_, ?_⟩
  · rw [hlog]
    exact List.nodup_nil
  · intro i th hi hph
    refine ⟨?_, ?_⟩
    · rw [hlog]
      exact List.not_mem_nil _
    · intro hr
      rw [hslot] at hr
      cases hr
  · intro hr
    rw [hslot] at hr
    cases hr

lemma reachable_inv {s₀ s : Sys} (h0 : SysInv s₀) (hr : Reachable s₀ s) :
    SysInv s := by
  induction hr with
  | refl => exact h0
  | tail hab hbc ih => exact step_inv hbc ih

/-- Along any single step, `pending_taken` rises from false to true exactly
when the step is a value-claiming receive, which appends exactly one payload
to the log of delivered values. -/
lemma taken_rise_iff_claim {s s' : Sys} (hstep : Step s s') :
    (s.slot.taken = false ∧ s'.slot.taken = true) ↔
      ∃ p, s'.log = s.log ++ [p] := by
  cases hstep with
  | send_closed i th hi hph hcl =>
      constructor
      · rintro ⟨h1, h2⟩
        exact Bool.noConfusion (h1.symm.trans h2)
      · rintro ⟨p, hp⟩
        have := congrArg List.length hp
        simp at this
  | send_deposit i th hi hph hcl =>
      constructor
      · rintro ⟨h1, h2⟩
        exact Bool.noConfusion h2
      · rintro ⟨p, hp⟩
        have := congrArg List.length hp
        simp at this
  | send_wake i th hi hph hw =>
      constructor
      · rintro ⟨h1, h2⟩
        exact Bool.noConfusion h2
      · rintro ⟨p, hp⟩
        have := congrArg List.length hp
        simp at this
  | recv_wait j th hj hph hb hr hcl =>
      constructor
      · rintro ⟨h1, h2⟩
        exact Bool.noConfusion (h1.symm.trans h2)
      · rintro ⟨p, hp⟩
        have := congrArg List.length hp
        simp at this
  | recv_claim j th hj hph hr ht =>
      constructor
      · intro _
        exact ⟨s.slot.value, rfl⟩
      · intro _
        exact ⟨ht, rfl⟩
  | recv_none j th hj hph hwake hnc =>
      constructor
      · rintro ⟨h1, h2⟩
        exact Bool.noConfusion (h1.symm.trans h2)
      · rintro ⟨p, hp⟩
        have := congrArg List.length hp
        simp at this
  | try_recv_none j th hj hph hb hnc =>
      constructor
      · rintro ⟨h1, h2⟩
        exact Bool.noConfusion (h1.symm.trans h2)
      · rintro ⟨p, hp⟩
        have := congrArg List.length hp
        simp at this
  | close_step =>
      constructor
      · rintro ⟨h1, h2⟩
        exact Bool.noConfusion (h1.symm.trans h2)
      · rintro ⟨p, hp⟩
        have := congrArg List.length hp
        simp at this

/-- Initial configuration for the concrete interleaving below: one sender
about to send `42`, one blocking receiver, open empty slot. -/
def cex_s0 : Sys :=
  ⟨⟨none, false, false, false⟩,
    fun k => if k = 0 then some ⟨42, SPhase.start⟩ else none,
    fun k => if k = 0 then some ⟨true, RPhase.start⟩ else none,
    []⟩

/-- After the sender deposits `42` and blocks. -/
def cex_s1 : Sys :=
  { cex_s0 with
    slot := { cex_s0.slot with value := some 42, ready := true, taken := false }
    senders := updS cex_s0.senders 0 ⟨42, SPhase.waiting⟩ }

/-- After `conduit_channel_close` runs. -/
def cex_s2 : Sys :=
  { cex_s1 with slot := { cex_s1.slot with closed := true } }

/-- After the sender wakes (closed, not taken), resets the slot and returns
false. -/
def cex_s3 : Sys :=
  { cex_s2 with
    slot := { cex_s2.slot with value := none, ready := false, taken := false }
    senders := updS cex_s2.senders 0 ⟨42, SPhase.done false⟩ }

/-- After the receiver runs: the slot is no longer ready and the channel is
closed, so it returns none. -/
def cex_s4 : Sys :=
  { cex_s3 with receivers := updR cex_s3.receivers 0 ⟨true, RPhase.doneNone⟩ }

lemma init_cex_s0 : Init cex_s0 := by
  refine ⟨rfl, rfl, ?_, ?_⟩
  · intro i th h
    simp only [cex_s0] at h
    by_cases hi : i = 0
    · subst hi
      rw [if_pos rfl] at h
      injection h with h
      rw [← h]
    · rw [if_neg hi] at h
      cases h
  · intro i j thi thj hi hj hne
    simp only [cex_s0] at hi hj
    by_cases hi0 : i = 0 <;> by_cases hj0 : j = 0
    · exact absurd (hi0.trans hj0.symm) hne
    · rw [if_neg hj0] at hj
      cases hj
    · rw [if_neg hi0] at hi
      cases hi
    · rw [if_neg hi0] at hi
      cases hi

lemma cex_step01 : Step cex_s0 cex_s1 :=
  Step.send_deposit cex_s0 0 ⟨42, SPhase.start⟩ rfl rfl rfl

lemma cex_step12 : Step cex_s1 cex_s2 :=
  Step.close_step cex_s1

lemma cex_step23 : Step cex_s2 cex_s3 :=
  Step.send_wake cex_s2 0 ⟨42, SPhase.waiting⟩ rfl rfl (Or.inr rfl)

lemma cex_step34 : Step cex_s3 cex_s4 :=
  Step.recv_none cex_s3 0 ⟨true, RPhase.start⟩ rfl (Or.inl rfl) (Or.inr rfl)
    (by decide)

lemma cex_reach04 : Reachable cex_s0 cex_s4 :=
  Relation.ReflTransGen.head cex_step01
    (Relation.ReflTransGen.head cex_step12
      (Relation.ReflTransGen.head cex_step23
        (Relation.ReflTransGen.single cex_step34)))

/-- Every thread of the system has returned: no receive is still possible. -/
def threads_finished (s : Sys) : Prop :=
  (∀ i th, s.senders i = some th → ∃ b, th.phase = SPhase.done b) ∧
  (∀ j th, s.receivers j = some th →
    th.phase = RPhase.doneNone ∨ ∃ p, th.phase = RPhase.doneVal p)

lemma cex_s4_finished : threads_finished cex_s4 := by
  constructor
  · intro i th h
    simp only [cex_s4, cex_s3, cex_s2, cex_s1, cex_s0, updS] at h
    by_cases hi : i = 0
    · subst hi
      rw [if_pos rfl] at h
      injection h with h
      rw [← h]
      exact ⟨false, rfl⟩
    · rw [if_neg hi, if_neg hi, if_neg hi] at h
      cases h
  · intro j th h
    simp only [cex_s4, cex_s3, cex_s2, cex_s1, cex_s0, updR] at h
    by_cases hj : j = 0
    · subst hj
      rw [if_pos rfl] at h
      injection h with h
      rw [← h]
      exact Or.inl rfl
    · rw [if_neg hj, if_neg hj] at h
      cases h

/-- C9 counterexample: an interleaving of the unbuffered protocol in which a
send deposits `42` into the pending slot (step `cex_s0 → cex_s1`), the
channel is then closed, the sender wakes and returns false, and the receiver
returns none.  The run reaches a state where every thread has finished, yet
the log of values returned by receives is empty: the deposited value `42`
was observed by zero receives, not exactly one. -/
theorem deposited_value_zero_receives :
    Init cex_s0 ∧
    Step cex_s0 cex_s1 ∧
    cex_s1.slot.ready = true ∧
    cex_s1.slot.value = some 42 ∧
    Reachable cex_s0 cex_s4 ∧
    threads_finished cex_s4 ∧
    cex_s4.senders 0 = some ⟨42, SPhase.done false⟩ ∧
    cex_s4.log = [] :=
  ⟨init_cex_s0, cex_step01, rfl, rfl, cex_reach04, cex_s4_finished, rfl, rfl⟩

/-- C9 (amended): on an unbuffered channel, a deposited value is observed by
AT MOST one receive: in every state reachable from an initial configuration
(under every interleaving of concurrent senders, blocking receivers,
try_recv callers and closers) the log of payloads returned by receives has
no duplicate — no two receives ever return the same deposited value — and
`pending_taken` rises from false to true exactly at the value-claiming
receive steps, once per delivered value.  (A deposited value can be observed
by zero receives when close intervenes, as the counterexample shows, so
"exactly one" weakens to "at most one".) -/
theorem unbuffered_no_double_delivery (s₀ s : Sys)
    (h0 : Init s₀) (hr : Reachable s₀ s) :
    s.log.Nodup ∧
    ∀ s', Step s s' →
      ((s.slot.taken = false ∧ s'.slot.taken = true) ↔
        ∃ p, s'.log = s.log ++ [p]) :=
  ⟨(reachable_inv (init_inv h0) hr).1,
    fun _ hstep => taken_rise_iff_claim hstep⟩

/-- Witness for `unbuffered_no_double_delivery`, at the concrete
interleaving above. -/
theorem unbuffered_no_double_delivery_witness :
    cex_s4.log.Nodup ∧
    ∀ s', Step cex_s4 s' →
      ((cex_s4.slot.taken = false ∧ s'.slot.taken = true) ↔
        ∃ p, s'.log = cex_s4.log ++ [p]) :=
  unbuffered_no_double_delivery cex_s0 cex_s4 init_cex_s0 cex_reach04

end Conduit
